import Mathlib

/-!
Verification development for the worklog classification-and-consolidation
pipeline.

The embedded definitions are shallow translations of the TypeScript sources:

* `src/unnamed/part_003` — the deterministic "Rule Oracle" merge script
  (`isStandaloneUpdate`, `isContinuation`, `shouldMerge`, `mergePosts`, and
  its `main` loop, embedded as `ruleProcess`);
* `src/scripts/merge-threads-local.ts` — `detectThreads`, `mergeThread`,
  and its `main` loop, embedded as `mergeLocalProcess`;
* `src/scripts/categorize.ts` — a concatenation of several scripts holding
  the pattern classifier `categorizePost`, the Twitter-import classifier
  (embedded as `categorizePostTw`), `groupByTimeProximity`, and the
  response handling of the LLM partition oracle (`analyzeThreadGroup` and
  the loop of its `main`, embedded as `oracleResultPartition` and
  `applyPartition`).

Modelling choices: timestamps are parsed instants, modelled as `Int`
milliseconds (the scripts only ever use `new Date(ts).getTime()`); string
content is `String`, with JavaScript regular expressions over it embedded
by the small `Pat` language below (every regex in the sources falls into
one of its shapes); `category?`/`curated?` fields are `Option` values,
with JavaScript truthiness of `p.curated` modelled as `p.curated = some
true`.
-/

set_option maxRecDepth 16384

set_option maxHeartbeats 1600000

namespace Worklog

inductive Category where
  | update
  | thought
deriving DecidableEq, Repr

structure Post where
  id : String
  content : String
  timestamp : Int
  category : Option Category
  curated : Option Bool
deriving DecidableEq, Repr

/-- Placeholder returned by `List.headD` where the scripts index `xs[0]`
into a list that is never empty at run time. -/
def dfltPost : Post := ⟨"", "", 0, none, none⟩

/-! ## Regular-expression shapes

Every regex in the sources is one of: a case-insensitive anchored literal
(`/^lit/i`), an anchored literal with a digit run (`/^pre\d+post/i`), an
anchored literal with a word-character run (`/^pre\w+post/i`), an
unanchored literal (`/lit/i`), a same-line gap (`/a.*b/i`, where `.` does
not match a line terminator), or an optional single character
(`/a.?b/i`).  Alternations `(x|y)` are expanded into one pattern per
branch, which preserves the only use the sources make of a pattern list:
`some(p => p.test(content))`.  Case-insensitivity is embedded by mapping
`Char.toLower` over the subject and writing the literals in lower case
(all literals are ASCII). -/

def isWordChar (c : Char) : Bool := c.isAlphanum || c == '_'

/-- Match a literal at the front, returning the rest on success. -/
def stripLit : List Char → List Char → Option (List Char)
  | [], s => some s
  | _, [] => none
  | a :: as, c :: cs => if a == c then stripLit as cs else none

/-- Strip a non-empty run of characters satisfying `f` (the maximal run,
as a backtracking regex engine finds when the following literal cannot
begin with such a character — true of every pattern in the sources). -/
def stripRun1 (f : Char → Bool) : List Char → Option (List Char)
  | [] => none
  | c :: cs => if f c then some (cs.dropWhile f) else none

/-- Is `b` found at or after this point, without crossing a newline
(JavaScript `.` does not match a line terminator)? -/
def seekSameLine (b : List Char) : List Char → Bool
  | [] => (stripLit b []).isSome
  | c :: cs => (stripLit b (c :: cs)).isSome || (c != '\n' && seekSameLine b cs)

/-- Does some suffix of the subject satisfy `f`? (unanchored search) -/
def anySuffix (f : List Char → Bool) : List Char → Bool
  | [] => f []
  | c :: cs => f (c :: cs) || anySuffix f cs

inductive Pat where
  | pfx (lit : String)
  | pfxDigits (pre post : String)
  | pfxWord (pre post : String)
  | has (lit : String)
  | hasSeq (a b : String)
  | hasOptChar (a b : String)
deriving DecidableEq, Repr

def Pat.core (p : Pat) (t : List Char) : Bool :=
  match p with
  | .pfx lit => (stripLit lit.data t).isSome
  | .pfxDigits pre post =>
    match stripLit pre.data t with
    | some r =>
      match stripRun1 Char.isDigit r with
      | some r2 => (stripLit post.data r2).isSome
      | none => false
    | none => false
  | .pfxWord pre post =>
    match stripLit pre.data t with
    | some r =>
      match stripRun1 isWordChar r with
      | some r2 => (stripLit post.data r2).isSome
      | none => false
    | none => false
  | .has lit => anySuffix (fun s => (stripLit lit.data s).isSome) t
  | .hasSeq a b =>
    anySuffix (fun s =>
      match stripLit a.data s with
      | some r => seekSameLine b.data r
      | none => false) t
  | .hasOptChar a b =>
    anySuffix (fun s =>
      match stripLit a.data s with
      | some r =>
        (stripLit b.data r).isSome ||
          (match r with
           | c :: r2 => c != '\n' && (stripLit b.data r2).isSome
           | [] => false)
      | none => false) t

/-- JavaScript `pattern.test(s)` for a `/.../i` regex of shape `p`. -/
def Pat.test (p : Pat) (s : String) : Bool := p.core (s.data.map Char.toLower)

/-! ## `src/unnamed/part_003`: the Rule Oracle -/

/-- `CONTINUATION_PATTERNS` of `part_003`. -/
def CONTINUATION_PATTERNS : List Pat := [
  .pfx "so i\x27m going to",
  .pfx "so i",
  .pfx "it\x27ll be",
  .pfx "it will be",
  .pfx "this means",
  .pfx "this is",
  .pfx "that\x27s why",
  .pfx "which means",
  .pfx "all this to say",
  .pfx "in other words",
  .pfx "basically",
  .pfx "anyway",
  .pfx "also,",
  .pfx "and ",
  .pfx "but ",
  .pfx "because ",
  .pfx "since ",
  .pfx "nvm,",
  .pfx "fixed.",
  .pfx "update:",
  .pfx "cont\x27d",
  .pfx "continued",
  .pfxDigits "" ".",
  .pfx "- "]

/-- `STANDALONE_UPDATE_PATTERNS` of `part_003`. -/
def STANDALONE_UPDATE_PATTERNS : List Pat := [
  .pfx "completed ",
  .pfxDigits "recorded " " roasts",
  .pfxDigits "sent " " ",
  .pfx "hosted ",
  .pfx "crushed ",
  .pfx "gym",
  .pfx "1:1 with",
  .pfx "paid ",
  .pfx "reviewed ",
  .pfx "cancelled ",
  .pfx "purchased ",
  .pfx "leg day",
  .pfx "chest day",
  .pfx "back day",
  .pfx "arm day"]

/-- `TIME_THRESHOLD_MS` of `part_003` (5 minutes). -/
def TIME_THRESHOLD_MS : Int := 5 * 60 * 1000

def isStandaloneUpdate (content : String) : Bool :=
  STANDALONE_UPDATE_PATTERNS.any (·.test content)

def isContinuation (content : String) : Bool :=
  CONTINUATION_PATTERNS.any (·.test content)

/-- `shouldMerge` of `part_003`.  `Math.abs(time2 - time1)` is `|·|` on
`Int`; JavaScript string `.length` is modelled by `String.length` (they
agree on the code points below U+10000 used throughout the data). -/
def shouldMerge (post1 post2 : Post) : Bool :=
  if post1.category != post2.category &&
      (isStandaloneUpdate post1.content || isStandaloneUpdate post2.content) then
    false
  else if isStandaloneUpdate post1.content && isStandaloneUpdate post2.content then
    false
  else
    let time1 := post1.timestamp
    let time2 := post2.timestamp
    let timeDiff := |time2 - time1|
    if timeDiff > TIME_THRESHOLD_MS then
      false
    else
      let laterPost := if time2 > time1 then post2 else post1
      if post1.category == some Category.thought &&
          post2.category == some Category.thought then
        if isContinuation laterPost.content then true
        else if post1.content.length > 100 && post2.content.length > 100 then true
        else if isContinuation laterPost.content then true
        else false
      else
        if isContinuation laterPost.content then true else false

/-- The ascending comparator `(a, b) => ta - tb`. -/
def tsLe (a b : Post) : Prop := a.timestamp ≤ b.timestamp

/-- The descending comparator `(a, b) => tb - ta`. -/
def tsGe (a b : Post) : Prop := b.timestamp ≤ a.timestamp

instance : DecidableRel tsLe := fun a b => Int.decLe a.timestamp b.timestamp

instance : DecidableRel tsGe := fun a b => Int.decLe b.timestamp a.timestamp

instance : IsTotal Post tsLe := ⟨fun a b => Int.le_total a.timestamp b.timestamp⟩

instance : IsTotal Post tsGe := ⟨fun a b => Int.le_total b.timestamp a.timestamp⟩

instance : IsTrans Post tsLe := ⟨fun _ _ _ hab hbc => Int.le_trans hab hbc⟩

instance : IsTrans Post tsGe := ⟨fun _ _ _ hab hbc => Int.le_trans hbc hab⟩

/-- Ascending timestamp sort, `[...posts].sort((a, b) => ta - tb)`.
JavaScript `Array.prototype.sort` is a stable sort, and any two stable
sorts under the same total preorder agree, so the stable
`List.insertionSort` models it exactly. -/
def sortAsc (posts : List Post) : List Post :=
  List.insertionSort tsLe posts

/-- Descending timestamp sort, `[...posts].sort((a, b) => tb - ta)`. -/
def sortDesc (posts : List Post) : List Post :=
  List.insertionSort tsGe posts

/-- `mergePosts` of `part_003`.  `sorted[0]` is `headD` with a dummy (the
script only ever calls this on threads of length at least 2). -/
def mergePosts (posts : List Post) : Post :=
  let sorted := sortAsc posts
  { id := (sorted.headD dfltPost).id
    content := String.intercalate "\n\n" (sorted.map (·.content))
    timestamp := (sorted.headD dfltPost).timestamp
    category :=
      if sorted.any (fun p => p.category == some Category.thought) then
        some Category.thought
      else some Category.update
    curated := some (sorted.any (fun p => p.curated == some true)) }

/-! ## The chained sweep

All three scripts build clusters with the same loop: walk the ascending
list, compare each post against the last member of the growing cluster,
and either extend the cluster or finalize it and start a new one.
`chainInto` carries the growing cluster in reverse (`cur`), with `lastP`
its most recently pushed member. -/

def chainInto (R : Post → Post → Bool) (cur : List Post) (lastP : Post) :
    List Post → List (List Post)
  | [] => [cur.reverse]
  | p :: rest =>
    if R lastP p then chainInto R (p :: cur) p rest
    else cur.reverse :: chainInto R [p] p rest

def chainBy (R : Post → Post → Bool) : List Post → List (List Post)
  | [] => []
  | p :: rest => chainInto R [p] p rest

/-- The thread-building loop of `part_003`'s `main`: ascending sort, then
the chained sweep joined by `shouldMerge(lastInThread, post)`. -/
def ruleThreads (posts : List Post) : List (List Post) :=
  chainBy shouldMerge (sortAsc posts)

/-- Finalization of one thread in the `main` loops: threads of length
greater than 1 are merged, a single post passes through (`thread[0]`). -/
def collapseWith (mergeFn : List Post → Post) (t : List Post) : Post :=
  if t.length > 1 then mergeFn t else t.headD dfltPost

/-- The pure core of `part_003`'s `main`: sort ascending, sweep into
threads with `shouldMerge`, merge multi-post threads, sort descending. -/
def ruleProcess (posts : List Post) : List Post :=
  sortDesc ((ruleThreads posts).map (collapseWith mergePosts))

/-! ## `src/scripts/merge-threads-local.ts` -/

/-- `THREAD_THRESHOLD_MS` (5 minutes). -/
def THREAD_THRESHOLD_MS : Int := 5 * 60 * 1000

/-- `MIN_THOUGHT_LENGTH`. -/
def MIN_THOUGHT_LENGTH : Nat := 100

/-- The per-step condition of `detectThreads`: join the current thread
when within 5 minutes and both posts are thoughts or substantial, or when
within 2 minutes outright. -/
def detectJoin (lastPost post : Post) : Bool :=
  let timeDiff := post.timestamp - lastPost.timestamp
  if timeDiff ≤ THREAD_THRESHOLD_MS then
    let lastIsThought := lastPost.category == some Category.thought ||
      lastPost.content.length > MIN_THOUGHT_LENGTH
    let currentIsThought := post.category == some Category.thought ||
      post.content.length > MIN_THOUGHT_LENGTH
    (lastIsThought && currentIsThought) || timeDiff ≤ 2 * 60 * 1000
  else false

/-- `detectThreads` of `merge-threads-local.ts`. -/
def detectThreads (posts : List Post) : List (List Post) :=
  chainBy detectJoin (sortAsc posts)

/-- `mergeThread` of `merge-threads-local.ts` (field for field the same
construction as `mergePosts` of `part_003`). -/
def mergeThread (posts : List Post) : Post :=
  let sorted := sortAsc posts
  { id := (sorted.headD dfltPost).id
    content := String.intercalate "\n\n" (sorted.map (·.content))
    timestamp := (sorted.headD dfltPost).timestamp
    category :=
      if sorted.any (fun p => p.category == some Category.thought) then
        some Category.thought
      else some Category.update
    curated := some (sorted.any (fun p => p.curated == some true)) }

/-- The pure core of `merge-threads-local.ts`'s `main`. -/
def mergeLocalProcess (posts : List Post) : List Post :=
  sortDesc ((detectThreads posts).map (collapseWith mergeThread))

/-! ## `src/scripts/categorize.ts`: the pattern classifier
(`UPDATE_PATTERNS` / `THOUGHT_PATTERNS` / `CURATED_INDICATORS` and
`categorizePost`, lines 339–485 of the concatenated file). -/

/-- `UPDATE_PATTERNS` (alternations expanded branch by branch; the
`day 💪` and `management for (Jan|…)` patterns are unanchored). -/
def UPDATE_PATTERNS : List Pat := [
  .pfxDigits "recorded " "",
  .pfx "recorded ",
  .pfx "completed ",
  .pfx "created ",
  .pfx "built ",
  .pfxDigits "sent " "",
  .pfxDigits "responded to " "",
  .pfx "reviewed ",
  .pfx "hosted ",
  .pfx "crushed leg",
  .pfx "crushed back",
  .pfx "crushed chest",
  .pfx "crushed arm",
  .pfx "crushed shoulder",
  .pfx "leg day",
  .pfx "back day",
  .pfx "chest day",
  .has "day 💪",
  .pfx "1:1 with",
  .pfx "podcast with",
  .pfx "cancelled",
  .pfx "refunded",
  .pfx "removed ",
  .pfx "messaged ",
  .pfx "invited ",
  .pfx "set up ",
  .pfx "fixed ",
  .pfx "wrote ",
  .pfx "migrated ",
  .pfx "outlined ",
  .pfx "edited",
  .pfx "uploaded",
  .pfx "booked ",
  .pfx "took thumbnails",
  .pfx "prepared for",
  .pfx "roasted ",
  .pfx "tested ",
  .pfx "bought ",
  .pfx "iterated ",
  .pfx "added ",
  .pfx "dealt with",
  .pfx "found ",
  .pfx "coached ",
  .pfx "scoped ",
  .pfx "wrapped up",
  .pfx "planned out",
  .pfx "cut ",
  .pfx "reorganized",
  .pfx "weekly office hour",
  .pfx "weekly community call",
  .has "management for jan",
  .has "management for feb",
  .has "management for mar",
  .has "management for apr",
  .has "management for may",
  .has "management for jun",
  .has "management for jul",
  .has "management for aug",
  .has "management for sep",
  .has "management for oct",
  .has "management for nov",
  .has "management for dec"]

/-- `THOUGHT_PATTERNS`. -/
def THOUGHT_PATTERNS : List Pat := [
  .pfx "i am",
  .pfx "i was",
  .pfx "i think",
  .pfx "i feel",
  .pfx "i believe",
  .pfx "i noticed",
  .pfx "i tried",
  .pfx "i get",
  .pfx "coming to the conclusion",
  .pfx "so i\x27m going to",
  .pfx "it\x27ll be ",
  .pfx "new project",
  .pfx "new idea",
  .pfx "possible ",
  .pfx "wow",
  .pfx "all this to say",
  .pfx "but if you",
  .pfx "second day of",
  .pfx "third day of",
  .pfx "first day of",
  .pfx "have been dragging",
  .pfx "only six modules",
  .pfx "drowning in",
  .pfx "feels great",
  .pfx "well, i tried",
  .pfx "that\x27s...",
  .pfxWord "" " is so",
  .has "my $0.02",
  .hasSeq "achievin" "potential",
  .has "strategy",
  .has "routine"]

/-- `CURATED_INDICATORS`. -/
def CURATED_INDICATORS : List Pat := [
  .pfx "coming to the conclusion",
  .pfx "new project",
  .pfx "new idea",
  .pfx "possible strategic",
  .pfx "all this to say",
  .pfx "i am achieving",
  .has "my $0.02",
  .has "potential",
  .has "strategy",
  .has "reminder that",
  .has "lesson",
  .has "insight",
  .has "realize",
  .has "free marketing",
  .has "mental bandwidth",
  .has "shockingly"]

/-- The `reflectiveWords` of the medium-length fallback. -/
def reflectiveWords : List String :=
  ["think", "feel", "believe", "seems", "maybe", "probably", "honestly", "frankly"]

/-- `content.trim()` (the relevant whitespace on this data is ASCII). -/
def jsTrim (s : String) : String :=
  ⟨(((s.data.dropWhile Char.isWhitespace).reverse.dropWhile Char.isWhitespace).reverse)⟩

/-- `trimmed.toLowerCase().includes(word)`. -/
def includesCI (word : String) (s : String) : Bool :=
  anySuffix (fun t => (stripLit word.data t).isSome) (s.data.map Char.toLower)

/-- `categorizePost` of `categorize.ts` (lines 435–485): update patterns
first, then thought patterns (with curated indicators and the
200-character curation rule), then the length/reflective-word fallback. -/
def categorizePost (content : String) : Category × Bool :=
  let trimmed := jsTrim content
  if UPDATE_PATTERNS.any (·.test trimmed) then
    (Category.update, false)
  else if THOUGHT_PATTERNS.any (·.test trimmed) then
    let curated := CURATED_INDICATORS.any (·.test trimmed)
    let curated := if trimmed.length > 200 && !curated then true else curated
    (Category.thought, curated)
  else if trimmed.length < 50 then
    (Category.update, false)
  else if trimmed.length > 200 then
    (Category.thought, true)
  else if reflectiveWords.any (fun w => includesCI w trimmed) then
    (Category.thought, false)
  else
    (Category.update, false)

/-! ## `src/scripts/categorize.ts`: the Twitter-import classifier
(lines 818–876 of the concatenated file). -/

def TW_UPDATE_PATTERNS : List Pat := [
  .pfx "completed", .pfx "recorded", .pfx "sent", .pfx "hosted", .pfx "finished",
  .pfx "reviewed", .pfx "created", .pfx "built", .pfx "fixed", .pfx "posted",
  .pfx "published", .pfx "wrote", .pfx "paid", .pfx "set up", .pfx "crushed",
  .pfx "1:1 with", .has "gym", .has "roast for", .has "roasts for",
  .has "management for",
  .pfx "responded to", .pfx "cancelled", .pfx "purchased", .pfx "donated",
  .pfx "tested", .pfx "experimented", .pfx "watched", .pfx "prepared",
  .pfx "iterated", .pfx "signed", .pfx "removed", .pfx "added", .pfx "updated",
  .pfx "messaged", .pfx "enriched", .pfx "ran", .pfx "implemented", .pfx "scraped",
  .pfx "refactored", .pfx "rebuilt", .pfx "appealed", .pfx "ordered",
  .has "leg day", .has "chest day", .has "back day", .has "arm day",
  .has "weekly office hour", .has "weekly community call", .has "live build",
  .has "podcast with", .has "stream with", .has "team meeting"]

def TW_THOUGHT_PATTERNS : List Pat := [
  .pfx "i think", .pfx "i believe", .pfx "i feel", .pfx "i am", .pfx "i\x27m",
  .pfx "coming to the conclusion", .pfx "finding:", .pfx "new idea",
  .pfx "the key", .pfx "biggest", .pfx "interesting", .pfx "wow",
  .has "should be", .has "could be", .has "is huge", .has "are huge",
  .has "all this to say", .has "learnings:", .has "observation",
  .pfx "can\x27t believe", .pfx "feels great", .pfx "not having",
  .pfx "this is what", .pfxWord "my " " now looks", .has "doesn\x27t work for me",
  .has "going to stop", .has "going to start", .has "decided to",
  .has "key here was", .has "you can totally", .has "definitely going to"]

def TW_CURATED_INDICATORS : List Pat := [
  .has "strategy", .has "framework", .has "insight", .has "learning",
  .has "principle", .has "realization", .has "epiphany", .has "breakthrough",
  .hasOptChar "game" "changer",
  .has "key here", .has "key takeaway", .has "key insight",
  .has "all this to say",
  .has "the biggest", .has "the best", .has "the key", .has "the most important",
  .has "i realized", .has "i discovered", .has "i learned", .has "i found that",
  .hasSeq "consistent " " raises", .has "significantly more",
  .has "unbeatable", .hasSeq "best " " by far", .has "biggest hack",
  .has "saves at least", .has "turns out", .has "wild west",
  .has "professional situation monitor", .has "algorithmic bullshit"]

/-- `categorizePost` of the Twitter-import script (lines 858–876): when a
text matches both an update and a thought pattern, length (over 150)
decides; when it matches neither, length (over 200) decides. -/
def categorizePostTw (content : String) : Category × Bool :=
  let isUpdate := TW_UPDATE_PATTERNS.any (·.test content)
  let isThought := TW_THOUGHT_PATTERNS.any (·.test content)
  let isCurated := TW_CURATED_INDICATORS.any (·.test content)
  let category :=
    if isThought && !isUpdate then Category.thought
    else if isThought && isUpdate then
      (if content.length > 150 then Category.thought else Category.update)
    else if !isThought && !isUpdate then
      (if content.length > 200 then Category.thought else Category.update)
    else Category.update
  (category, category == Category.thought && isCurated)

/-! ## `src/scripts/categorize.ts`: temporal grouping and the partition
oracle (lines 603–794 of the concatenated file). -/

/-- `TIME_THRESHOLD_MS` of the grouping scripts (10 minutes). -/
def GROUP_TIME_THRESHOLD_MS : Int := 10 * 60 * 1000

/-- `groupByTimeProximity`: ascending sort, then the chained sweep joined
purely by a 10-minute gap bound against the last member of the group. -/
def groupByTimeProximity (posts : List Post) : List (List Post) :=
  chainBy (fun lastPost post =>
    post.timestamp - lastPost.timestamp ≤ GROUP_TIME_THRESHOLD_MS) (sortAsc posts)

/-- The response handling of `analyzeThreadGroup` (lines 704–717): the
oracle response, once past the network, is either a parsed JSON array of
index arrays (`some part`) or unparseable (`none`, covering both the
missing `[...]` match and the `JSON.parse` failure), in which case every
post falls back to its own singleton group. -/
def oracleResultPartition (resp : Option (List (List Nat)))
    (groupSize : Nat) : List (List Nat) :=
  match resp with
  | some part => part
  | none => (List.range groupSize).map (fun i => [i])

/-- `indices.map((idx) => group[idx])` of the `main` loop (lines
767–776).  An index outside the group yields `undefined` in JavaScript,
which is carried along rather than crashing at the lookup itself; an
`undefined` member is the inner `none`. -/
def lookupIndices (group : List Post) (indices : List Nat) : List (Option Post) :=
  indices.map (fun i => group.get? i)

/-- `mergePosts` applied to a `threadPosts` array that may contain
`undefined` members.  The `sort` inside `mergePosts` never calls the
comparator on `undefined` (ECMA-262 `SortCompare` moves undefined
elements to the end without comparing), but the call still throws
whenever some member is `undefined`: with at least one defined member,
`sorted.map((p) => p.content)` dereferences the first `undefined`; with
none, `sorted[0].id` does.  So the call crashes (`none`) exactly when a
member is `undefined`, and otherwise merges the members in their given
order. -/
def mergePostsWithUndefined (threadPosts : List (Option Post)) : Option Post :=
  if threadPosts.all (·.isSome) then some (mergePosts (threadPosts.filterMap id))
  else none

/-- The per-group body of the `main` loop (lines 767–776): each returned
index group is looked up in the cluster with no validation that the
partition covers it.  A group of more than one index goes to
`mergePosts`, which throws when an index was out of range (the outer
`none`); a single-index or empty group pushes `threadPosts[0]` as is, so
an `undefined` entry (inner `none`) survives to the output — the final
sort moves it to the end without consulting the comparator and
`JSON.stringify` serializes it as `null`, the run completing. -/
def applyPartition (part : List (List Nat)) (group : List Post) :
    Option (List (Option Post)) :=
  part.foldl
    (fun acc indices =>
      match acc with
      | none => none
      | some fp =>
        let threadPosts := lookupIndices group indices
        if indices.length > 1 then
          match mergePostsWithUndefined threadPosts with
          | some merged => some (fp ++ [some merged])
          | none => none
        else
          some (fp ++ [threadPosts.headD none]))
    (some [])

/-! ## Generic lemmas about the chained sweep -/

theorem chainInto_join (R : Post → Post → Bool) :
    ∀ (rest cur : List Post) (lastP : Post),
      (chainInto R cur lastP rest).flatten = cur.reverse ++ rest := by
  intro rest
  induction rest with
  | nil => intro cur lastP; simp [chainInto]
  | cons p rest ih =>
    intro cur lastP
    simp only [chainInto]
    by_cases h : R lastP p
    · simp [h, ih]
    · simp [h, ih]

theorem chainBy_join (R : Post → Post → Bool) (l : List Post) :
    (chainBy R l).flatten = l := by
  cases l with
  | nil => simp [chainBy]
  | cons p rest => simp [chainBy, chainInto_join]

theorem chainInto_ne_nil (R : Post → Post → Bool) :
    ∀ (rest cur : List Post) (lastP : Post), cur ≠ [] →
      ∀ g ∈ chainInto R cur lastP rest, g ≠ [] := by
  intro rest
  induction rest with
  | nil =>
    intro cur lastP hcur g hg
    simp [chainInto] at hg
    subst hg
    simpa using hcur
  | cons p rest ih =>
    intro cur lastP hcur g hg
    simp only [chainInto] at hg
    by_cases h : R lastP p
    · rw [if_pos h] at hg
      exact ih (p :: cur) p (by simp) g hg
    · rw [if_neg h] at hg
      rcases List.mem_cons.mp hg with h1 | h2
      · subst h1; simpa using hcur
      · exact ih [p] p (by simp) g h2

theorem chainBy_ne_nil (R : Post → Post → Bool) (l : List Post) :
    ∀ g ∈ chainBy R l, g ≠ [] := by
  cases l with
  | nil => simp [chainBy]
  | cons p rest => exact chainInto_ne_nil R rest [p] p (by simp)

theorem chainInto_chain (R : Post → Post → Bool) :
    ∀ (rest cur : List Post) (lastP : Post), cur.head? = some lastP →
      List.Chain' (fun a b => R b a = true) cur →
      ∀ g ∈ chainInto R cur lastP rest, List.Chain' (fun a b => R a b = true) g := by
  intro rest
  induction rest with
  | nil =>
    intro cur lastP _ hchain g hg
    simp [chainInto] at hg
    subst hg
    exact (List.chain'_reverse).mpr hchain
  | cons p rest ih =>
    intro cur lastP hhead hchain g hg
    simp only [chainInto] at hg
    by_cases h : R lastP p
    · rw [if_pos h] at hg
      refine ih (p :: cur) p (by simp) ?_ g hg
      refine (List.chain'_cons').mpr ⟨?_, hchain⟩
      intro b hb
      rw [hhead] at hb
      simp at hb
      subst hb
      exact h
    · rw [if_neg h] at hg
      rcases List.mem_cons.mp hg with h1 | h2
      · subst h1
        exact (List.chain'_reverse).mpr hchain
      · exact ih [p] p (by simp) (by simp) g h2

theorem chainInto_head_head (R : Post → Post → Bool) :
    ∀ (rest cur : List Post) (lastP : Post), cur ≠ [] →
      ((chainInto R cur lastP rest).head?.bind (·.head?)) = cur.getLast? := by
  intro rest
  induction rest with
  | nil =>
    intro cur lastP _
    simp [chainInto, List.head?_reverse]
  | cons p rest ih =>
    intro cur lastP hcur
    simp only [chainInto]
    by_cases h : R lastP p
    · rw [if_pos h, ih (p :: cur) p (by simp)]
      cases cur with
      | nil => exact absurd rfl hcur
      | cons c cs => simp
    · rw [if_neg h]
      simp [List.head?_reverse]

theorem chainInto_boundary (R : Post → Post → Bool) :
    ∀ (rest cur : List Post) (lastP : Post), cur.head? = some lastP →
      List.Chain' (fun g g' => ∀ p q, g.getLast? = some p → g'.head? = some q →
        R p q = false) (chainInto R cur lastP rest) := by
  intro rest
  induction rest with
  | nil => intro cur lastP _; simp [chainInto]
  | cons p rest ih =>
    intro cur lastP hhead
    simp only [chainInto]
    by_cases h : R lastP p
    · rw [if_pos h]
      exact ih (p :: cur) p (by simp)
    · rw [if_neg h]
      refine (List.chain'_cons').mpr ⟨?_, ih [p] p (by simp)⟩
      intro g' hg' a b ha hb
      have hhh := chainInto_head_head R rest [p] p (by simp)
      rw [hg'] at hhh
      simp [hb] at hhh
      subst hhh
      rw [List.getLast?_reverse] at ha
      rw [hhead] at ha
      simp at ha
      subst ha
      simpa using h

theorem chainInto_singletons (R : Post → Post → Bool) :
    ∀ (rest : List Post) (p : Post),
      List.Chain' (fun a b => R a b = false) (p :: rest) →
      chainInto R [p] p rest = (p :: rest).map (fun q => [q]) := by
  intro rest
  induction rest with
  | nil => intro p _; simp [chainInto]
  | cons q rest ih =>
    intro p hchain
    have h1 : R p q = false := (List.chain'_cons.mp hchain).1
    have h2 := (List.chain'_cons.mp hchain).2
    simp only [chainInto]
    rw [if_neg (by simp [h1])]
    simp [ih q h2]

theorem chainBy_singletons (R : Post → Post → Bool) (l : List Post)
    (h : List.Chain' (fun a b => R a b = false) l) :
    chainBy R l = l.map (fun q => [q]) := by
  cases l with
  | nil => simp [chainBy]
  | cons p rest => exact chainInto_singletons R rest p h

/-! ## Stable sorting by a key with no duplicates -/

/-- Two sorted permutations of each other agree when the sort key has no
duplicates. -/
theorem key_sorted_perm_eq (f : Post → Int) :
    ∀ (l₂ l₁ : List Post), l₁.Perm l₂ →
      l₁.Pairwise (fun a b => f a ≤ f b) →
      l₂.Pairwise (fun a b => f a ≤ f b) →
      (l₂.map f).Nodup → l₁ = l₂ := by
  intro l₂
  induction l₂ with
  | nil =>
    intro l₁ hperm _ _ _
    exact hperm.eq_nil
  | cons b t₂ ih =>
    intro l₁ hperm hs₁ hs₂ hnd
    cases l₁ with
    | nil => exact absurd hperm.symm.eq_nil (by simp)
    | cons a t₁ =>
      have hab : a = b := by
        by_contra hne
        have ha2 : a ∈ b :: t₂ := hperm.mem_iff.mp (by simp)
        have hat₂ : a ∈ t₂ := by
          rcases List.mem_cons.mp ha2 with h | h
          · exact absurd h hne
          · exact h
        have hba : f b ≤ f a := (List.pairwise_cons.mp hs₂).1 a hat₂
        have hb1 : b ∈ a :: t₁ := hperm.symm.mem_iff.mp (by simp)
        have hbt₁ : b ∈ t₁ := by
          rcases List.mem_cons.mp hb1 with h | h
          · exact absurd h.symm hne
          · exact h
        have hab' : f a ≤ f b := (List.pairwise_cons.mp hs₁).1 b hbt₁
        have hfe : f b = f a := le_antisymm hba hab'
        have : f a ∈ t₂.map f := List.mem_map_of_mem f hat₂
        rw [← hfe] at this
        exact (List.nodup_cons.mp (by simpa using hnd)).1 this
      subst hab
      have htperm : t₁.Perm t₂ := hperm.cons_inv
      have := ih t₁ htperm (List.pairwise_cons.mp hs₁).2
        (List.pairwise_cons.mp hs₂).2 (List.nodup_cons.mp (by simpa using hnd)).2
      rw [this]

/-! ## Small helpers -/

theorem headD_mem {l : List Post} (h : l ≠ []) (d : Post) : l.headD d ∈ l := by
  cases l with
  | nil => exact absurd rfl h
  | cons a t => simp

theorem collapseWith_singleton (m : List Post → Post) (p : Post) :
    collapseWith m [p] = p := by
  simp [collapseWith]

theorem length_le_flatten :
    ∀ (gs : List (List Post)), (∀ g ∈ gs, g ≠ []) → gs.length ≤ gs.flatten.length := by
  intro gs
  induction gs with
  | nil => simp
  | cons g t ih =>
    intro h
    have hg : g ≠ [] := h g (by simp)
    have : 1 ≤ g.length := by
      cases g with
      | nil => exact absurd rfl hg
      | cons a b => simp
    simp only [List.length_cons, List.flatten_cons, List.length_append]
    have := ih (fun x hx => h x (by simp [hx]))
    omega

theorem sortAsc_perm (posts : List Post) : (sortAsc posts).Perm posts :=
  List.perm_insertionSort tsLe posts

theorem sortDesc_perm (posts : List Post) : (sortDesc posts).Perm posts :=
  List.perm_insertionSort tsGe posts

theorem sortAsc_sorted (posts : List Post) :
    (sortAsc posts).Pairwise (fun a b => a.timestamp ≤ b.timestamp) :=
  List.sorted_insertionSort tsLe posts

theorem sortDesc_sorted (posts : List Post) :
    (sortDesc posts).Pairwise (fun a b => b.timestamp ≤ a.timestamp) :=
  List.sorted_insertionSort tsGe posts

/-- `sortAsc` recovers a strictly ascending list from any of its
permutations. -/
theorem sortAsc_eq_of_perm {l l' : List Post}
    (hsorted : l.Pairwise (fun a b => a.timestamp ≤ b.timestamp))
    (hnd : (l.map (fun p => p.timestamp)).Nodup)
    (hperm : l'.Perm l) : sortAsc l' = l := by
  refine key_sorted_perm_eq (fun p => p.timestamp) l (sortAsc l')
    ((sortAsc_perm l').trans hperm) (sortAsc_sorted l') hsorted hnd

/-- `sortDesc` likewise, for a strictly descending list. -/
theorem sortDesc_eq_of_perm {l l' : List Post}
    (hsorted : l.Pairwise (fun a b => b.timestamp ≤ a.timestamp))
    (hnd : (l.map (fun p => p.timestamp)).Nodup)
    (hperm : l'.Perm l) : sortDesc l' = l := by
  refine key_sorted_perm_eq (fun p => -p.timestamp) l (sortDesc l')
    ((sortDesc_perm l').trans hperm)
    ((sortDesc_sorted l').imp (fun {a b} h => by first | omega | (dsimp only; omega)))
    (hsorted.imp (fun {a b} h => by first | omega | (dsimp only; omega))) ?_
  have h1 : (l.map (fun p => p.timestamp)).Pairwise (fun a b => a ≠ b) := hnd
  have h2 : l.Pairwise (fun a b => a.timestamp ≠ b.timestamp) :=
    (List.pairwise_map).mp h1
  exact (List.pairwise_map).mpr (h2.imp (fun {a b} h => by first | omega | (dsimp only; omega)))

/-! ## Concrete posts used in the counterexamples and witnesses -/

/-- A post whose content matches the standalone-update shape `/^gym/i`
while being categorized (and classified) a thought. -/
def gymPost : Post :=
  ⟨"a", "Gym thinking today made me realize how much the structure of my mornings shapes the quality of my deep work", 0, some Category.thought, some false⟩

/-- A long thought posted one minute later. -/
def refactorPost : Post :=
  ⟨"b", "The second half of the day went to refactoring the merge pipeline and the cleanup turned out to be much bigger", 60000, some Category.thought, some false⟩

def ideaPost : Post :=
  ⟨"c1", "I am thinking about the architecture of the worklog pipeline today and it is harder", 0, some Category.thought, some false⟩

def contPost : Post :=
  ⟨"c2", "So I\x27m going to rewrite the importer module next week", 60000, some Category.thought, some false⟩

def longPost : Post :=
  ⟨"c3", "I am honestly convinced that the best way to keep this project moving is to keep shipping small pieces every single morning", 120000, some Category.thought, some false⟩

def firstOraclePost : Post := ⟨"p0", "first", 0, some Category.thought, some false⟩

def secondOraclePost : Post := ⟨"p1", "second", 60000, some Category.thought, some false⟩

/-! ## C1 — the standalone-update veto -/

/-- C1, counterexample.  The claim says a cluster containing a
standalone-update-shaped entry and a thought entry is never merged.  In
the code the veto fires only across a category mismatch: here the
standalone-shaped entry (`/^gym/i`) is itself categorized "thought", the
pair clears every guard of `shouldMerge`, and the pipeline combines the
two entries into one. -/
theorem c1_standalone_thought_cluster_merges :
    isStandaloneUpdate gymPost.content = true ∧
    gymPost.category = some Category.thought ∧
    refactorPost.category = some Category.thought ∧
    shouldMerge gymPost refactorPost = true ∧
    (ruleProcess [gymPost, refactorPost]).length = 1 := by
  refine ⟨by decide, by decide, by decide, by decide, by decide⟩

/-- C1, amended.  `shouldMerge` of `part_003` returns `false` — with no
regard to the time gap — whenever the two posts differ in category and
either content matches a standalone-update pattern; the veto is exactly
the category-mismatch case. -/
theorem c1_mixed_category_standalone_veto (p q : Post)
    (hc : p.category ≠ q.category)
    (hs : isStandaloneUpdate p.content = true ∨ isStandaloneUpdate q.content = true) :
    shouldMerge p q = false := by
  have h1 : (p.category != q.category) = true := by simp [bne_iff_ne, hc]
  have h2 : (isStandaloneUpdate p.content || isStandaloneUpdate q.content) = true := by
    rcases hs with h | h <;> simp [h]
  simp [shouldMerge, h1, h2]

/-- C1, witness for the amended theorem: an update-categorized
"Completed …" post next to a thought is vetoed even at a zero gap. -/
theorem c1_veto_witness :
    shouldMerge
      ⟨"w1", "Completed the quarterly report", 0, some Category.update, some false⟩
      ⟨"w2", "I am rethinking the roadmap", 0, some Category.thought, some false⟩ = false :=
  c1_mixed_category_standalone_veto _ _ (by decide) (Or.inl (by decide))

/-! ## C3 — Narrative Oracle fallback -/

/-- C3.  The code falls back to singleton groups only when the oracle
response is unparseable; a parsed but structurally invalid partition is
applied without validation: an omitted index silently drops a post, a
duplicated index duplicates one, a single out-of-range index pushes an
`undefined` entry that survives to the serialized output as `null`
(corrupt, but the run completes), and an out-of-range index inside a
multi-index group crashes the run inside `mergePosts` (the outer
`none`).  Only the first, unparseable case matches the claimed singleton
fallback. -/
theorem c3_oracle_fallback_behavior :
    applyPartition (oracleResultPartition none 2) [firstOraclePost, secondOraclePost] =
      some [some firstOraclePost, some secondOraclePost] ∧
    applyPartition [[0]] [firstOraclePost, secondOraclePost] =
      some [some firstOraclePost] ∧
    applyPartition [[0], [0], [1]] [firstOraclePost, secondOraclePost] =
      some [some firstOraclePost, some firstOraclePost, some secondOraclePost] ∧
    applyPartition [[2]] [firstOraclePost, secondOraclePost] = some [none] ∧
    applyPartition [[0, 2]] [firstOraclePost, secondOraclePost] = none := by
  refine ⟨by decide, by decide, by decide, by decide, by decide⟩

/-! ## C4 — update rules before thought rules -/

/-- C4, amended.  In the main classifier (`categorizePost`, lines
435–485) any update-pattern match fixes the category to "update" before
the thought patterns are consulted, whatever else the text matches. -/
theorem c4_update_rules_first (content : String)
    (h : UPDATE_PATTERNS.any (·.test (jsTrim content)) = true) :
    (categorizePost content).1 = Category.update := by
  simp [categorizePost, h]

/-- C4, witness: a completion phrase that also contains reflective
vocabulary ("think") is still an update under `categorizePost`. -/
theorem c4_update_rules_first_witness :
    (categorizePost "Completed the restructure and I think it went well").1 =
      Category.update :=
  c4_update_rules_first _ (by decide)

/-- C4, counterexample.  The Twitter-import classifier (lines 858–876)
does not give update rules positional precedence: this content matches an
update pattern (`/^fixed/i`) and a thought pattern (`/decided to/i`), and
because it is longer than 150 characters the classifier returns
"thought". -/
theorem c4_tw_length_overrides :
    TW_UPDATE_PATTERNS.any (·.test "Fixed the deploy pipeline late last night and decided to move every script over to the new build system because the old one kept breaking in subtle ways each week") = true ∧
    TW_THOUGHT_PATTERNS.any (·.test "Fixed the deploy pipeline late last night and decided to move every script over to the new build system because the old one kept breaking in subtle ways each week") = true ∧
    (categorizePostTw "Fixed the deploy pipeline late last night and decided to move every script over to the new build system because the old one kept breaking in subtle ways each week").1 = Category.thought := by
  refine ⟨by decide, by decide, by decide⟩

/-! ## C5 — updates are never notable -/

/-- C5, amended.  Both classifiers never return `curated = true` together
with category "update"; and the mergers preserve the stronger data-model
invariant "curated only when thought": when every member that is curated
is categorized "thought", a curated merge result is categorized
"thought". -/
theorem c5_exclusivity_preserved :
    (∀ content : String,
      ¬((categorizePost content).1 = Category.update ∧
        (categorizePost content).2 = true)) ∧
    (∀ content : String,
      ¬((categorizePostTw content).1 = Category.update ∧
        (categorizePostTw content).2 = true)) ∧
    (∀ group : List Post,
      (∀ p ∈ group, p.curated = some true → p.category = some Category.thought) →
      ((mergePosts group).curated = some true →
        (mergePosts group).category = some Category.thought) ∧
      ((mergeThread group).curated = some true →
        (mergeThread group).category = some Category.thought)) := by
  refine ⟨?_, ?_, ?_⟩
  · intro content h
    rcases h with ⟨h1, h2⟩
    simp only [categorizePost] at h1 h2
    split_ifs at h1 h2
  · intro content h
    rcases h with ⟨h1, h2⟩
    simp only [categorizePostTw] at h1 h2
    rw [h1] at h2
    simp at h2
  · intro group hmem
    have key : (mergePosts group).curated = some true →
        (mergePosts group).category = some Category.thought := by
      intro hcur
      simp only [mergePosts, sortAsc] at hcur ⊢
      rw [Option.some_inj] at hcur
      rcases List.any_eq_true.mp hcur with ⟨p, hp, hpc⟩
      have hpg : p ∈ group := (List.perm_insertionSort tsLe group).mem_iff.mp hp
      have hth := hmem p hpg (by simpa using hpc)
      have hany : (List.insertionSort tsLe group).any
          (fun p => p.category == some Category.thought) = true :=
        List.any_eq_true.mpr ⟨p, hp, by simp [hth]⟩
      simp [hany]
    exact ⟨key, key⟩

/-- C5, counterexample for the merger half as literally stated: two
uncategorized posts, one curated, each satisfy "never curated together
with category update", yet their merge is a curated update. -/
theorem c5_merge_breaks_weak_invariant :
    (¬((⟨"a", "x", 0, none, some true⟩ : Post).category = some Category.update ∧
        (⟨"a", "x", 0, none, some true⟩ : Post).curated = some true)) ∧
    (¬((⟨"b", "y", 60000, none, none⟩ : Post).category = some Category.update ∧
        (⟨"b", "y", 60000, none, none⟩ : Post).curated = some true)) ∧
    (mergePosts [⟨"a", "x", 0, none, some true⟩, ⟨"b", "y", 60000, none, none⟩]).category =
      some Category.update ∧
    (mergePosts [⟨"a", "x", 0, none, some true⟩, ⟨"b", "y", 60000, none, none⟩]).curated =
      some true := by
  refine ⟨by decide, by decide, by decide, by decide⟩

/-- C5, witness: concrete applications of the three parts. -/
theorem c5_exclusivity_witness :
    (mergePosts [⟨"a", "I am rethinking things", 0, some Category.thought, some true⟩]).category =
      some Category.thought :=
  (c5_exclusivity_preserved.2.2
    [⟨"a", "I am rethinking things", 0, some Category.thought, some true⟩]
    (by decide)).1 (by decide)

/-! ## C6 — the merge characterization -/

def tiePostA : Post := ⟨"a", "A", 0, some Category.thought, some false⟩

def tiePostB : Post := ⟨"b", "B", 0, some Category.thought, some false⟩

/-- C6, counterexample.  With equal timestamps the stable sort keeps
arrival order, so the merged content and id depend on the order the group
arrived in, against the "regardless of the order" part of the claim. -/
theorem c6_tie_order_dependent :
    tiePostA.timestamp = tiePostB.timestamp ∧
    (mergePosts [tiePostA, tiePostB]).content = "A\n\nB" ∧
    (mergePosts [tiePostB, tiePostA]).content = "B\n\nA" ∧
    mergePosts [tiePostA, tiePostB] ≠ mergePosts [tiePostB, tiePostA] := by
  refine ⟨by decide, by decide, by decide, by decide⟩

/-- C6, amended: for groups with pairwise distinct timestamps the claim
holds in full.  For any arrival order `l'` of the strictly
ascending list `l`, the merge of `l'` has the ascending-order first
member's id and timestamp, the contents joined with a blank line in
ascending order, category "thought" exactly when some member is a
thought, and the notable flag exactly when some member is notable; and
`mergeThread` of `merge-threads-local.ts` computes the same entry. -/
theorem c6_merge_characterization (l l' : List Post)
    (hsorted : l.Pairwise (fun p q => p.timestamp < q.timestamp))
    (hperm : l'.Perm l) (hlen : 2 ≤ l'.length) :
    mergePosts l' =
      { id := (l.headD dfltPost).id
        content := String.intercalate "\n\n" (l.map (·.content))
        timestamp := (l.headD dfltPost).timestamp
        category :=
          if l.any (fun p => p.category == some Category.thought) then
            some Category.thought
          else some Category.update
        curated := some (l.any (fun p => p.curated == some true)) } ∧
    mergeThread l' = mergePosts l' := by
  have hle : l.Pairwise (fun a b => a.timestamp ≤ b.timestamp) :=
    hsorted.imp (fun {a b} h => le_of_lt h)
  have hnd : (l.map (fun p => p.timestamp)).Nodup :=
    (List.pairwise_map).mpr (hsorted.imp (fun {a b} h => by
      first | omega | (dsimp only; omega)))
  have hs : sortAsc l' = l := sortAsc_eq_of_perm hle hnd hperm
  exact ⟨by simp only [mergePosts, hs], rfl⟩

def wUpd : Post := ⟨"u", "U", 0, some Category.update, some false⟩

def wTho : Post := ⟨"v", "V", 60000, some Category.thought, some true⟩

/-- C6, witness: the characterization applied to a two-member group
arriving in descending order. -/
theorem c6_merge_characterization_witness :
    mergePosts [wTho, wUpd] =
      { id := ([wUpd, wTho].headD dfltPost).id
        content := String.intercalate "\n\n" ([wUpd, wTho].map (·.content))
        timestamp := ([wUpd, wTho].headD dfltPost).timestamp
        category :=
          if [wUpd, wTho].any (fun p => p.category == some Category.thought) then
            some Category.thought
          else some Category.update
        curated := some ([wUpd, wTho].any (fun p => p.curated == some true)) } ∧
    mergeThread [wTho, wUpd] = mergePosts [wTho, wUpd] :=
  c6_merge_characterization [wUpd, wTho] [wTho, wUpd] (by decide) (by decide) (by decide)

/-! ## C8 — singleton merge -/

/-- C8, counterexample.  On a singleton whose `category`/`curated` are
unset, `mergeThread` does not return the member unchanged: it fills
`category = update` and `curated = false`. -/
theorem c8_singleton_not_identity :
    mergeThread [⟨"a", "x", 0, none, none⟩] ≠ (⟨"a", "x", 0, none, none⟩ : Post) ∧
    (mergeThread [⟨"a", "x", 0, none, none⟩]).category = some Category.update ∧
    (mergeThread [⟨"a", "x", 0, none, none⟩]).curated = some false := by
  refine ⟨by decide, by decide, by decide⟩

/-- C8, amended.  The pipelines pass a singleton cluster through
unchanged (their `main` loops push `thread[0]` without calling the
merger); `mergeThread` itself is the identity on a singleton exactly when
the member's `category` and `curated` are already set. -/
theorem c8_singleton_identity_when_classified :
    (∀ p : Post, ruleProcess [p] = [p] ∧ mergeLocalProcess [p] = [p]) ∧
    (∀ (p : Post) (c : Category) (b : Bool),
      p.category = some c → p.curated = some b → mergeThread [p] = p) := by
  constructor
  · intro p
    exact ⟨rfl, rfl⟩
  · intro p c b hc hb
    cases p with
    | mk id content ts cat cur =>
      simp only at hc hb
      subst hc
      subst hb
      cases c <;> cases b <;> rfl

/-- C8, witness: a classified thought passes through both pipelines and
through `mergeThread` unchanged. -/
theorem c8_singleton_witness :
    ruleProcess [gymPost] = [gymPost] ∧ mergeThread [gymPost] = gymPost :=
  ⟨(c8_singleton_identity_when_classified.1 gymPost).1,
   c8_singleton_identity_when_classified.2 gymPost Category.thought false rfl rfl⟩

/-! ## C7 and C9 — the chained temporal grouper -/

theorem chainBy_chain (R : Post → Post → Bool) (l : List Post) :
    ∀ g ∈ chainBy R l, List.Chain' (fun a b => R a b = true) g := by
  cases l with
  | nil => simp [chainBy]
  | cons p rest => exact chainInto_chain R rest [p] p (by simp) (by simp)

theorem chainBy_boundary (R : Post → Post → Bool) (l : List Post) :
    List.Chain' (fun g g' => ∀ p q, g.getLast? = some p → g'.head? = some q →
      R p q = false) (chainBy R l) := by
  cases l with
  | nil => simp [chainBy]
  | cons p rest => exact chainInto_boundary R rest [p] p (by simp)

/-- C7.  The grouping of `groupByTimeProximity` is chained: the groups
concatenate to the ascending sort; inside a group every consecutive pair
is within the 10-minute threshold; across a group boundary the
consecutive pair exceeds it; and three entries with both consecutive gaps
within the threshold form one cluster whatever their total span. -/
theorem c7_chained_clustering :
    (∀ posts : List Post, (groupByTimeProximity posts).flatten = sortAsc posts) ∧
    (∀ posts : List Post, ∀ g ∈ groupByTimeProximity posts,
      List.Chain' (fun p q => q.timestamp - p.timestamp ≤ GROUP_TIME_THRESHOLD_MS) g) ∧
    (∀ posts : List Post,
      List.Chain' (fun g g' => ∀ p q : Post, g.getLast? = some p → g'.head? = some q →
        GROUP_TIME_THRESHOLD_MS < q.timestamp - p.timestamp) (groupByTimeProximity posts)) ∧
    (∀ a b c : Post, a.timestamp < b.timestamp → b.timestamp < c.timestamp →
      b.timestamp - a.timestamp ≤ GROUP_TIME_THRESHOLD_MS →
      c.timestamp - b.timestamp ≤ GROUP_TIME_THRESHOLD_MS →
      groupByTimeProximity [a, b, c] = [[a, b, c]]) := by
  refine ⟨?_, ?_, ?_, ?_⟩
  · intro posts
    exact chainBy_join _ _
  · intro posts g hg
    have h := chainBy_chain _ _ g hg
    exact h.imp (fun {p q} hpq => by simpa using hpq)
  · intro posts
    have h := chainBy_boundary
      (fun lastPost post => post.timestamp - lastPost.timestamp ≤ GROUP_TIME_THRESHOLD_MS)
      (sortAsc posts)
    refine h.imp (fun {g g'} hgg p q hp hq => ?_)
    have := hgg p q hp hq
    simp only [decide_eq_false_iff_not, not_le] at this
    exact this
  · intro a b c h1 h2 h3 h4
    have hsort : sortAsc [a, b, c] = [a, b, c] := by
      refine sortAsc_eq_of_perm ?_ ?_ (List.Perm.refl _)
      · refine List.pairwise_cons.mpr ⟨?_, List.pairwise_cons.mpr ⟨?_, ?_⟩⟩
        · intro x hx
          rcases List.mem_cons.mp hx with rfl | hx'
          · omega
          · rcases List.mem_cons.mp hx' with rfl | hx''
            · omega
            · simp at hx''
        · intro x hx
          rcases List.mem_cons.mp hx with rfl | hx'
          · omega
          · simp at hx'
        · simp
      · simp only [List.map_cons, List.map_nil, List.nodup_cons, List.mem_cons,
          List.mem_singleton, List.not_mem_nil, or_false, not_or, List.nodup_nil,
          not_false_eq_true, and_true]
        refine ⟨⟨?_, ?_⟩, ?_⟩ <;> omega
    have hb : b.timestamp ≤ GROUP_TIME_THRESHOLD_MS + a.timestamp := by omega
    have hc : c.timestamp ≤ GROUP_TIME_THRESHOLD_MS + b.timestamp := by omega
    simp [groupByTimeProximity, hsort, chainBy, chainInto, hb, hc]

def wSpanA : Post := ⟨"s1", "x", 0, some Category.thought, some false⟩

def wSpanB : Post := ⟨"s2", "y", 600000, some Category.thought, some false⟩

def wSpanC : Post := ⟨"s3", "z", 1200000, some Category.thought, some false⟩

/-- C7, witness: entries at 0, 10 and 20 minutes form a single cluster
under the 10-minute threshold though their span is 20 minutes. -/
theorem c7_chained_witness :
    GROUP_TIME_THRESHOLD_MS < wSpanC.timestamp - wSpanA.timestamp ∧
    groupByTimeProximity [wSpanA, wSpanB, wSpanC] = [[wSpanA, wSpanB, wSpanC]] :=
  ⟨by decide,
   c7_chained_clustering.2.2.2 wSpanA wSpanB wSpanC
     (by decide) (by decide) (by decide) (by decide)⟩

/-- C9.  Both temporal groupers return only non-empty clusters whose
concatenation is exactly the ascending sort of the input — a permutation
of the input, so nothing is dropped, duplicated or invented. -/
theorem c9_grouper_partition (posts : List Post) :
    ((∀ g ∈ groupByTimeProximity posts, g ≠ []) ∧
      (groupByTimeProximity posts).flatten = sortAsc posts ∧
      (sortAsc posts).Perm posts) ∧
    ((∀ g ∈ detectThreads posts, g ≠ []) ∧
      (detectThreads posts).flatten = sortAsc posts ∧
      (sortAsc posts).Perm posts) :=
  ⟨⟨chainBy_ne_nil _ _, chainBy_join _ _, sortAsc_perm _⟩,
   ⟨chainBy_ne_nil _ _, chainBy_join _ _, sortAsc_perm _⟩⟩

/-- C9, witness: the partition facts applied to a concrete two-post
collection, with the membership hypothesis discharged on the cluster the
grouper actually returns. -/
theorem c9_grouper_partition_witness :
    (groupByTimeProximity [wSpanA, wSpanB]).flatten = sortAsc [wSpanA, wSpanB] ∧
    [wSpanA, wSpanB] ≠ ([] : List Post) :=
  ⟨(c9_grouper_partition [wSpanA, wSpanB]).1.2.1,
   (c9_grouper_partition [wSpanA, wSpanB]).1.1 [wSpanA, wSpanB] (by decide)⟩

/-! ## C10 — the pipelines only discard and rename nothing -/

theorem mergePosts_id_mem (t : List Post) (h : t ≠ []) :
    (mergePosts t).id ∈ t.map Post.id := by
  have hne : sortAsc t ≠ [] := by
    intro hnil
    have := sortAsc_perm t
    rw [hnil] at this
    exact h this.symm.eq_nil
  have hmem : (sortAsc t).headD dfltPost ∈ t :=
    (sortAsc_perm t).mem_iff.mp (headD_mem hne dfltPost)
  simpa only [mergePosts] using List.mem_map_of_mem Post.id hmem

theorem mergeThread_id_mem (t : List Post) (h : t ≠ []) :
    (mergeThread t).id ∈ t.map Post.id :=
  mergePosts_id_mem t h

theorem collapse_id_mem (m : List Post → Post)
    (hm : ∀ t : List Post, t ≠ [] → (m t).id ∈ t.map Post.id)
    (g : List Post) (hg : g ≠ []) :
    (collapseWith m g).id ∈ g.map Post.id := by
  simp only [collapseWith]
  split_ifs with h
  · exact hm g hg
  · exact List.mem_map_of_mem Post.id (headD_mem hg dfltPost)

theorem pipeline_bounds (R : Post → Post → Bool) (m : List Post → Post)
    (hm : ∀ t : List Post, t ≠ [] → (m t).id ∈ t.map Post.id) (posts : List Post) :
    (sortDesc ((chainBy R (sortAsc posts)).map (collapseWith m))).length ≤ posts.length ∧
    ∀ p ∈ sortDesc ((chainBy R (sortAsc posts)).map (collapseWith m)),
      p.id ∈ posts.map Post.id := by
  constructor
  · rw [(sortDesc_perm _).length_eq, List.length_map]
    have h2 := length_le_flatten (chainBy R (sortAsc posts))
      (chainBy_ne_nil R (sortAsc posts))
    rw [chainBy_join] at h2
    calc (chainBy R (sortAsc posts)).length ≤ (sortAsc posts).length := h2
      _ = posts.length := (sortAsc_perm posts).length_eq
  · intro p hp
    have hp1 : p ∈ (chainBy R (sortAsc posts)).map (collapseWith m) :=
      (sortDesc_perm _).mem_iff.mp hp
    rcases List.mem_map.mp hp1 with ⟨g, hg, rfl⟩
    have hgne := chainBy_ne_nil R (sortAsc posts) g hg
    rcases List.mem_map.mp (collapse_id_mem m hm g hgne) with ⟨q, hq, hqid⟩
    have hqs : q ∈ sortAsc posts := by
      have : q ∈ (chainBy R (sortAsc posts)).flatten := List.mem_flatten.mpr ⟨g, hg, hq⟩
      rwa [chainBy_join] at this
    have hqp : q ∈ posts := (sortAsc_perm posts).mem_iff.mp hqs
    rw [← hqid]
    exact List.mem_map_of_mem Post.id hqp

/-- C10.  Both pipelines return at most as many entries as they receive,
and every output id is the id of some input entry. -/
theorem c10_pipeline_ids (posts : List Post) :
    ((ruleProcess posts).length ≤ posts.length ∧
      ∀ p ∈ ruleProcess posts, p.id ∈ posts.map Post.id) ∧
    ((mergeLocalProcess posts).length ≤ posts.length ∧
      ∀ p ∈ mergeLocalProcess posts, p.id ∈ posts.map Post.id) :=
  ⟨pipeline_bounds shouldMerge mergePosts mergePosts_id_mem posts,
   pipeline_bounds detectJoin mergeThread mergeThread_id_mem posts⟩

/-- C10, witness: a singleton collection passes through with its count
and id intact. -/
theorem c10_pipeline_ids_witness :
    (ruleProcess [gymPost]).length ≤ [gymPost].length ∧
    gymPost.id ∈ [gymPost].map Post.id :=
  ⟨(c10_pipeline_ids [gymPost]).1.1,
   (c10_pipeline_ids [gymPost]).1.2 gymPost (by decide)⟩

/-! ## C2 — idempotence of the merge pipeline -/

/-- `shouldMerge` declines whatever else holds when the gap exceeds the
5-minute threshold. -/
theorem shouldMerge_far (p q : Post)
    (h : TIME_THRESHOLD_MS < q.timestamp - p.timestamp) :
    shouldMerge p q = false := by
  have habs : TIME_THRESHOLD_MS < |q.timestamp - p.timestamp| :=
    lt_of_lt_of_le h (le_abs_self _)
  by_cases h1 : (p.category != q.category &&
      (isStandaloneUpdate p.content || isStandaloneUpdate q.content)) = true
  · simp [shouldMerge, h1]
  · by_cases h2 : (isStandaloneUpdate p.content && isStandaloneUpdate q.content) = true
    · simp [shouldMerge, h1, h2]
    · simp [shouldMerge, h1, h2, habs]

theorem map_collapse_singletons (m : List Post → Post) (l : List Post) :
    ((l.map (fun q => [q])).map (collapseWith m)) = l := by
  induction l with
  | nil => rfl
  | cons a t ih => simp [collapseWith_singleton, ih]

/-- C2, amended.  The Rule-Oracle merge pipeline is not idempotent in
general (see the counterexample), but on any collection whose time-sorted
consecutive entries are each more than the 5-minute threshold apart it
performs no merge at all — the run is exactly a descending re-sort, and
running it again returns the output unchanged. -/
theorem c2_idempotent_when_gap_separated (posts : List Post)
    (hgap : List.Chain' (fun p q => TIME_THRESHOLD_MS < q.timestamp - p.timestamp)
      (sortAsc posts)) :
    ruleProcess posts = sortDesc posts ∧
    ruleProcess (ruleProcess posts) = ruleProcess posts := by
  have hfalse : List.Chain' (fun p q => shouldMerge p q = false) (sortAsc posts) :=
    hgap.imp (fun {p q} h => shouldMerge_far p q h)
  have hsingle : chainBy shouldMerge (sortAsc posts) = (sortAsc posts).map (fun q => [q]) :=
    chainBy_singletons _ _ hfalse
  have hrule : ruleProcess posts = sortDesc (sortAsc posts) := by
    simp only [ruleProcess, ruleThreads, hsingle, map_collapse_singletons]
  have hlt : List.Chain' (fun p q : Post => p.timestamp < q.timestamp) (sortAsc posts) :=
    hgap.imp (fun {p q} h => by
      simp only [TIME_THRESHOLD_MS] at h
      omega)
  have hpwlt : (sortAsc posts).Pairwise (fun p q : Post => p.timestamp < q.timestamp) :=
    (@List.chain'_iff_pairwise Post (fun p q : Post => p.timestamp < q.timestamp)
      ⟨fun _ _ _ hab hbc => Int.lt_trans hab hbc⟩ (sortAsc posts)).mp hlt
  have hnds : ((sortAsc posts).map (fun p => p.timestamp)).Nodup :=
    (List.pairwise_map).mpr (hpwlt.imp (fun {a b} h => by
      first | omega | (dsimp only; omega)))
  have hndp : (posts.map (fun p => p.timestamp)).Nodup :=
    (((sortAsc_perm posts).map (fun p => p.timestamp)).nodup_iff).mp hnds
  have hdesc1 : sortDesc (sortAsc posts) = sortDesc posts := by
    refine sortDesc_eq_of_perm (sortDesc_sorted posts) ?_
      ((sortAsc_perm posts).trans (sortDesc_perm posts).symm)
    exact (((sortDesc_perm posts).map (fun p => p.timestamp)).nodup_iff).mpr hndp
  have part1 : ruleProcess posts = sortDesc posts := hrule.trans hdesc1
  refine ⟨part1, ?_⟩
  rw [part1]
  have hasc2 : sortAsc (sortDesc posts) = sortAsc posts :=
    sortAsc_eq_of_perm (sortAsc_sorted posts) hnds
      ((sortDesc_perm posts).trans (sortAsc_perm posts).symm)
  have : ruleProcess (sortDesc posts) = sortDesc (sortAsc posts) := by
    simp only [ruleProcess, ruleThreads, hasc2, hsingle, map_collapse_singletons]
  rw [this, hdesc1]

def c2Posts : List Post := [ideaPost, contPost, longPost]

/-- C2, counterexample.  Three classified thoughts one minute apart: the
first run merges the first two (continuation marker), producing a merged
entry whose content crosses the 100-character substance threshold; the
second run then merges that entry with the third, so the pipeline applied
to its own output shrinks it further.  The stored categories equal what
the classifier computes from the contents, so prior classification does
not rescue the claim. -/
theorem c2_not_idempotent :
    (ruleProcess c2Posts).length = 2 ∧
    (ruleProcess (ruleProcess c2Posts)).length = 1 ∧
    ruleProcess (ruleProcess c2Posts) ≠ ruleProcess c2Posts ∧
    ideaPost.category = some (categorizePost ideaPost.content).1 ∧
    contPost.category = some (categorizePost contPost.content).1 ∧
    longPost.category = some (categorizePost longPost.content).1 := by
  refine ⟨by decide, by decide, by decide, by decide, by decide, by decide⟩

def farPostA : Post := ⟨"f1", "x", 0, some Category.update, some false⟩

def farPostB : Post := ⟨"f2", "y", 1000000, some Category.thought, some false⟩

/-- C2, witness for the amended theorem at a gap-separated collection. -/
theorem c2_gap_separated_witness :
    ruleProcess [farPostA, farPostB] = sortDesc [farPostA, farPostB] ∧
    ruleProcess (ruleProcess [farPostA, farPostB]) = ruleProcess [farPostA, farPostB] :=
  c2_idempotent_when_gap_separated [farPostA, farPostB] (by
    rw [show sortAsc [farPostA, farPostB] = [farPostA, farPostB] from by decide]
    simp only [List.chain'_cons, List.chain'_singleton, and_true]
    decide)

end Worklog
